import Mathlib

set_option maxRecDepth 100000

/-!
Verification of the HireMind AI screening pipeline (src/AI_HR.py) against its
specification.  The Python code is shallowly embedded: Python strings become
`List Char`, the external services (HTTP backend, PDF page decoder, DOCX
parser, UTF-8 decoder, PDF serializer) become explicit parameters or record
fields holding their results, and every function of the source file that the
claims mention is translated here definition by definition.
-/

namespace HireMind

/-- Python strings are modelled as lists of characters. -/
abbrev Str := List Char

/-! ## Models of the Python string primitives used by the source -/

/-- Membership in Python's default `str.strip` whitespace set.  Python strips
Unicode whitespace; the source only ever meets ASCII whitespace, which is what
we model: space, tab, newline, carriage return, vertical tab, form feed. -/
def isPySpace (c : Char) : Bool :=
  c == ' ' || c == '\t' || c == '\n' || c == '\r' || c == '\x0b' || c == '\x0c'

/-- Python `str.lstrip()`. -/
def pyLstrip (s : Str) : Str := s.dropWhile isPySpace

/-- Python `str.rstrip()`. -/
def pyRstrip (s : Str) : Str := (s.reverse.dropWhile isPySpace).reverse

/-- Python `str.strip()`: drop whitespace from both ends. -/
def pyStrip (s : Str) : Str := pyLstrip (pyRstrip s)

/-- Apply `f` to every character and concatenate the results. -/
def charwise (f : Char → Str) : Str → Str
  | [] => []
  | c :: s => f c ++ charwise f s

/-- Python `str.split("\n")`: split on every newline; adjacent newlines give
empty fields, and the empty string yields one empty field. -/
def pySplitNl : Str → List Str
  | [] => [[]]
  | c :: s =>
    if c = '\n' then [] :: pySplitNl s
    else
      match pySplitNl s with
      | [] => [[c]]
      | h :: t => (c :: h) :: t

/-- Core loop of Python `str.replace` for a non-empty pattern `p :: ps`:
scan left to right; on a match emit `rep` and resume after the matched
occurrence, otherwise emit one character and continue. -/
def replaceNE (p : Char) (ps rep : Str) : Str → Str
  | [] => []
  | c :: s =>
    if (p :: ps).isPrefixOf (c :: s) then rep ++ replaceNE p ps rep (s.drop ps.length)
    else c :: replaceNE p ps rep s
termination_by s => s.length
decreasing_by
  · simp only [List.length_drop, List.length_cons]; omega
  · simp only [List.length_cons]; omega

/-- Python `s.replace(pat, rep)`: replaces every non-overlapping occurrence of
`pat`, leftmost first; an empty pattern inserts `rep` before every character
and at the end, as Python does. -/
def pyReplace (s pat rep : Str) : Str :=
  match pat with
  | [] => rep ++ charwise (fun c => c :: rep) s
  | p :: ps => replaceNE p ps rep s

/-! ## Renderer sanitization (`_sanitize_for_pdf`, src/AI_HR.py lines 211-217) -/

/-- Embedding of `_sanitize_for_pdf`: `None` maps to the empty string, and a
string goes through
`line.replace("&", "&amp;").replace("<", "&lt;").replace(">", "&gt;")`. -/
def sanitize_for_pdf (line : Option Str) : Str :=
  match line with
  | none => []
  | some l =>
    pyReplace (pyReplace (pyReplace l "&".data "&amp;".data) "<".data "&lt;".data)
      ">".data "&gt;".data

/-- The per-character escaping the spec describes: `&`, `<`, `>` become their
entities, every other character is unchanged. -/
def escapeChar (c : Char) : Str :=
  if c = '&' then "&amp;".data
  else if c = '<' then "&lt;".data
  else if c = '>' then "&gt;".data
  else [c]

/-! ## Lemmas about the string primitives -/

theorem charwise_append (f : Char → Str) (a b : Str) :
    charwise f (a ++ b) = charwise f a ++ charwise f b := by
  induction a with
  | nil => rfl
  | cons c a ih => simp [charwise, ih]

theorem charwise_comp (f g : Char → Str) (s : Str) :
    charwise f (charwise g s) = charwise (fun c => charwise f (g c)) s := by
  induction s with
  | nil => rfl
  | cons c s ih => simp [charwise, charwise_append, ih]

theorem charwise_congr {f g : Char → Str} (h : ∀ c, f c = g c) (s : Str) :
    charwise f s = charwise g s := by
  induction s with
  | nil => rfl
  | cons c s ih => simp [charwise, h c, ih]

theorem not_mem_charwise {x : Char} {f : Char → Str} (h : ∀ c, x ∉ f c) (s : Str) :
    x ∉ charwise f s := by
  induction s with
  | nil => simp [charwise]
  | cons c s ih => simp [charwise, List.mem_append]; exact ⟨h c, ih⟩

theorem replaceNE_single (c : Char) (rep : Str) (s : Str) :
    replaceNE c [] rep s = charwise (fun x => if x = c then rep else [x]) s := by
  induction s with
  | nil => simp [replaceNE, charwise]
  | cons x s ih =>
    rw [replaceNE]
    by_cases hx : x = c
    · subst hx
      simp [List.isPrefixOf, charwise, ih]
    · have hne : ¬ ([c].isPrefixOf (x :: s) = true) := by
        simp [List.isPrefixOf]
        exact fun h => (hx h.symm).elim
      simp only [hne, if_false, if_neg hne]
      simp [charwise, ih, if_neg hx]

theorem sanitize_charwise (l : Str) :
    sanitize_for_pdf (some l) = charwise escapeChar l := by
  show pyReplace (pyReplace (pyReplace l "&".data "&amp;".data) "<".data "&lt;".data)
      ">".data "&gt;".data = charwise escapeChar l
  simp only [pyReplace, String.data]
  rw [replaceNE_single, replaceNE_single, replaceNE_single, charwise_comp, charwise_comp]
  apply charwise_congr
  intro c
  by_cases h1 : c = '&'
  · subst h1; decide
  · by_cases h2 : c = '<'
    · subst h2; decide
    · by_cases h3 : c = '>'
      · subst h3; decide
      · simp [charwise, escapeChar, h1, h2, h3]

theorem lt_not_mem_escapeChar (c : Char) : '<' ∉ escapeChar c := by
  unfold escapeChar
  by_cases h1 : c = '&'
  · subst h1; decide
  · by_cases h2 : c = '<'
    · subst h2; decide
    · by_cases h3 : c = '>'
      · subst h3; decide
      · simp [h1, h2, h3]
        exact fun h => h2 h.symm

theorem gt_not_mem_escapeChar (c : Char) : '>' ∉ escapeChar c := by
  unfold escapeChar
  by_cases h1 : c = '&'
  · subst h1; decide
  · by_cases h2 : c = '<'
    · subst h2; decide
    · by_cases h3 : c = '>'
      · subst h3; decide
      · simp [h1, h2, h3]
        exact fun h => h3 h.symm

/-- C1: every occurrence of `&`, `<`, `>` in a line is replaced by `&amp;`,
`&lt;`, `&gt;` respectively before insertion (the sanitizer acts exactly as
the per-character entity escaping), the line `"A & B < C > D"` yields
`"A &amp; B &lt; C &gt; D"`, and no raw `<` or `>` survives in the output, so
none of the three characters remains outside entities. -/
theorem C1_sanitize_escapes_entities :
    (∀ l : Str, sanitize_for_pdf (some l) = charwise escapeChar l)
    ∧ sanitize_for_pdf (some "A & B < C > D".data) = "A &amp; B &lt; C &gt; D".data
    ∧ (∀ l : Str, '<' ∉ sanitize_for_pdf (some l) ∧ '>' ∉ sanitize_for_pdf (some l)) := by
  refine ⟨sanitize_charwise, ?_, ?_⟩
  · rw [sanitize_charwise]; decide
  · intro l
    rw [sanitize_charwise]
    exact ⟨not_mem_charwise lt_not_mem_escapeChar l, not_mem_charwise gt_not_mem_escapeChar l⟩

/-! ## File reading (src/AI_HR.py lines 173-207)

The external parsers (pypdf, python-docx, UTF-8 decoding) are modelled at the
boundary: an uploaded file carries the results those parsers would produce
(per-page text layers, paragraph texts, table cell texts, the decoded bytes),
and the embedded readers perform exactly the processing the source does on
top of them. -/

/-- An uploaded file: its declared name plus the views of its bytes that the
external parsers hand to the source code. -/
structure UploadedFile where
  name : Str
  pdfPages : List Str
  docxParagraphs : List Str
  docxTables : List (List (List Str))
  txtDecoded : Str

/-- Embedding of `read_pdf`: `pages` holds `page.extract_text()` for each page
in order; the loop keeps the truthy (non-empty) ones, then the code returns
`"\n".join(text).strip()`. -/
def read_pdf (pages : List Str) : Str :=
  let text := pages.foldl (fun acc t => if t ≠ [] then acc ++ [t] else acc) ([] : List Str)
  pyStrip (List.intercalate ['\n'] text)

/-- Embedding of `read_docx`: keep stripped non-empty paragraphs, then for
each table row join the stripped non-empty cells with `" | "` and keep the
non-empty rows; return `"\n".join(parts).strip()`. -/
def read_docx (paras : List Str) (tables : List (List (List Str))) : Str :=
  let parts := paras.foldl
    (fun acc p => if pyStrip p ≠ [] then acc ++ [pyStrip p] else acc) ([] : List Str)
  let parts2 := tables.foldl (fun acc table =>
    table.foldl (fun acc2 row =>
      let row_text :=
        List.intercalate " | ".data ((row.filter (fun cell => !(pyStrip cell).isEmpty)).map pyStrip)
      if row_text ≠ [] then acc2 ++ [row_text] else acc2) acc) parts
  pyStrip (List.intercalate ['\n'] parts2)

/-- Embedding of `read_txt`: `decoded` is `file.getvalue().decode("utf-8",
errors="ignore")`; the code strips it. -/
def read_txt (decoded : Str) : Str := pyStrip decoded

/-- Python `str.lower()`, modelled characterwise (the source only compares
ASCII extensions). -/
def pyLower (s : Str) : Str := s.map Char.toLower

/-- Embedding of `extract_text`: lowercase the declared name and dispatch on
its suffix; unknown extensions give the empty string. -/
def extract_text (f : UploadedFile) : Str :=
  let name := pyLower f.name
  if ".pdf".data.isSuffixOf name then read_pdf f.pdfPages
  else if ".docx".data.isSuffixOf name then read_docx f.docxParagraphs f.docxTables
  else if ".txt".data.isSuffixOf name then read_txt f.txtDecoded
  else []

/-- The concatenation the spec describes for PDF extraction: non-empty page
texts joined in page order with newline separators (no final strip).
Modelled from the spec for comparison with `read_pdf`. -/
def joinPagesSpec (pages : List Str) : Str :=
  List.intercalate ['\n'] (pages.filter (fun t => !t.isEmpty))

/-! ## Lemmas about the readers -/

theorem foldl_keep_nonempty (pages : List Str) (acc : List Str) :
    pages.foldl (fun acc t => if t ≠ [] then acc ++ [t] else acc) acc
      = acc ++ pages.filter (fun t => !t.isEmpty) := by
  induction pages generalizing acc with
  | nil => simp
  | cons p ps ih =>
    rw [List.foldl_cons, ih]
    by_cases hp : p = []
    · subst hp; simp
    · simp [hp, List.filter_cons, List.isEmpty_iff, List.append_assoc]

theorem read_pdf_eq (pages : List Str) :
    read_pdf pages = pyStrip (joinPagesSpec pages) := by
  unfold read_pdf joinPagesSpec
  rw [foldl_keep_nonempty]
  simp

theorem head?_pyStrip {s : Str} {c : Char} (h : (pyStrip s).head? = some c) :
    isPySpace c = false := by
  have := List.head?_dropWhile_not isPySpace (pyRstrip s)
  unfold pyStrip pyLstrip at h
  rw [h] at this
  exact this

theorem getLast?_suffix {t l : List Char} (h : t <:+ l) (ht : t ≠ []) :
    l.getLast? = t.getLast? := by
  obtain ⟨u, rfl⟩ := h
  rw [List.getLast?_append]
  cases hg : t.getLast? with
  | none => exact absurd (List.getLast?_eq_none_iff.mp hg) ht
  | some x => rfl

theorem getLast?_pyStrip {s : Str} {c : Char} (h : (pyStrip s).getLast? = some c) :
    isPySpace c = false := by
  have hne : pyStrip s ≠ [] := by
    intro hnil; rw [hnil] at h; simp at h
  have hsuf : pyStrip s <:+ pyRstrip s := List.dropWhile_suffix isPySpace
  have h2 : (pyRstrip s).getLast? = some c := by
    rw [getLast?_suffix hsuf hne]; exact h
  unfold pyRstrip at h2
  rw [List.getLast?_reverse] at h2
  have := List.head?_dropWhile_not isPySpace s.reverse
  rw [h2] at this
  exact this

theorem extract_pdf_branch (f : UploadedFile)
    (h : ".pdf".data.isSuffixOf (pyLower f.name) = true) :
    extract_text f = read_pdf f.pdfPages := by
  unfold extract_text
  simp [h]

theorem suffix_last_ne {s1 s2 l : List Char} (h1 : s1.isSuffixOf l = true)
    (h2 : s2.isSuffixOf l = true) (hn1 : s1 ≠ []) (hn2 : s2 ≠ []) :
    s1.getLast? = s2.getLast? := by
  rw [List.isSuffixOf_iff_suffix] at h1 h2
  rw [← getLast?_suffix h1 hn1, ← getLast?_suffix h2 hn2]

theorem extract_docx_branch (f : UploadedFile)
    (h : ".docx".data.isSuffixOf (pyLower f.name) = true) :
    extract_text f = read_docx f.docxParagraphs f.docxTables := by
  have hpdf : ¬ (".pdf".data.isSuffixOf (pyLower f.name) = true) := by
    intro hp
    have := suffix_last_ne hp h (by decide) (by decide)
    simp at this
  unfold extract_text
  simp [h, hpdf]

theorem extract_txt_branch (f : UploadedFile)
    (h : ".txt".data.isSuffixOf (pyLower f.name) = true) :
    extract_text f = read_txt f.txtDecoded := by
  have hpdf : ¬ (".pdf".data.isSuffixOf (pyLower f.name) = true) := by
    intro hp
    have := suffix_last_ne hp h (by decide) (by decide)
    simp at this
  have hdocx : ¬ (".docx".data.isSuffixOf (pyLower f.name) = true) := by
    intro hd
    have := suffix_last_ne hd h (by decide) (by decide)
    simp at this
  unfold extract_text
  simp [h, hpdf, hdocx]

/-- C5 counterexample: a single page whose text layer is `" a"` makes
`read_pdf` return `"a"`, not the plain newline-joined concatenation `" a"`,
because the source strips the joined result. -/
theorem C5_counterexample : read_pdf [" a".data] ≠ joinPagesSpec [" a".data] := by
  decide

/-- C5 (amended): the extractor keeps exactly the pages whose extraction
yields non-empty text, joins them in page order with newline separators, and
additionally strips leading and trailing whitespace from the joined result. -/
theorem C5_read_pdf_join_strip (pages : List Str) :
    read_pdf pages = pyStrip (joinPagesSpec pages) :=
  read_pdf_eq pages

/-- C6: a file whose lowercased name ends in none of `.pdf`, `.docx`, `.txt`
is mapped to the empty string by `extract_text`.  (That every supported
extension yields a string, possibly empty, is the return type of
`extract_text` itself.) -/
theorem C6_unsupported_extension_empty (f : UploadedFile)
    (h1 : ".pdf".data.isSuffixOf (pyLower f.name) = false)
    (h2 : ".docx".data.isSuffixOf (pyLower f.name) = false)
    (h3 : ".txt".data.isSuffixOf (pyLower f.name) = false) :
    extract_text f = [] := by
  unfold extract_text
  simp [h1, h2, h3]

/-- A concrete unsupported upload used to witness C6. -/
def rtfFile : UploadedFile :=
  ⟨"cv.rtf".data, ["page text".data], ["para".data], [], "raw".data⟩

theorem C6_witness : extract_text rtfFile = [] :=
  C6_unsupported_extension_empty rtfFile (by decide) (by decide) (by decide)

/-- C9: for every supported upload, the extracted text has no leading and no
trailing whitespace: its first and last characters, when they exist, are not
whitespace, because each of the three readers strips its assembled text. -/
theorem C9_extract_text_stripped (f : UploadedFile)
    (h : ".pdf".data.isSuffixOf (pyLower f.name) = true
      ∨ ".docx".data.isSuffixOf (pyLower f.name) = true
      ∨ ".txt".data.isSuffixOf (pyLower f.name) = true) :
    (∀ c, (extract_text f).head? = some c → isPySpace c = false)
    ∧ (∀ c, (extract_text f).getLast? = some c → isPySpace c = false) := by
  rcases h with h | h | h
  · rw [extract_pdf_branch f h]
    exact ⟨fun c hc => head?_pyStrip hc, fun c hc => getLast?_pyStrip hc⟩
  · rw [extract_docx_branch f h]
    exact ⟨fun c hc => head?_pyStrip hc, fun c hc => getLast?_pyStrip hc⟩
  · rw [extract_txt_branch f h]
    exact ⟨fun c hc => head?_pyStrip hc, fun c hc => getLast?_pyStrip hc⟩

/-- A concrete text upload with surrounding whitespace, used to witness C9. -/
def wsTxtFile : UploadedFile :=
  ⟨"cv.txt".data, [], [], [], " hi ".data⟩

theorem C9_witness : isPySpace 'h' = false ∧ isPySpace 'i' = false := by
  constructor
  · exact (C9_extract_text_stripped wsTxtFile (Or.inr (Or.inr (by decide)))).1 'h' (by decide)
  · exact (C9_extract_text_stripped wsTxtFile (Or.inr (Or.inr (by decide)))).2 'i' (by decide)

/-- C10: dispatch is case-insensitive suffix matching on the declared file
name: if the lowercased name ends in `.pdf`, `.docx`, `.txt` respectively,
the corresponding reader produces the result. -/
theorem C10_dispatch_case_insensitive (f : UploadedFile) :
    (".pdf".data.isSuffixOf (pyLower f.name) = true → extract_text f = read_pdf f.pdfPages)
    ∧ (".docx".data.isSuffixOf (pyLower f.name) = true
        → extract_text f = read_docx f.docxParagraphs f.docxTables)
    ∧ (".txt".data.isSuffixOf (pyLower f.name) = true → extract_text f = read_txt f.txtDecoded) :=
  ⟨extract_pdf_branch f, extract_docx_branch f, extract_txt_branch f⟩

/-- A concrete upload with an uppercase name, used to witness C10. -/
def upperPdfFile : UploadedFile :=
  ⟨"RESUME.PDF".data, ["page one".data], [], [], []⟩

/-- A concrete DOCX upload used to witness C10. -/
def upperDocxFile : UploadedFile :=
  ⟨"Resume.DocX".data, [], ["para one".data], [], []⟩

/-- A concrete TXT upload used to witness C10. -/
def upperTxtFile : UploadedFile :=
  ⟨"NOTES.TXT".data, [], [], [], "notes".data⟩

theorem C10_witness :
    extract_text upperPdfFile = read_pdf upperPdfFile.pdfPages
    ∧ extract_text upperDocxFile = read_docx upperDocxFile.docxParagraphs upperDocxFile.docxTables
    ∧ extract_text upperTxtFile = read_txt upperTxtFile.txtDecoded :=
  ⟨(C10_dispatch_case_insensitive upperPdfFile).1 (by decide),
   (C10_dispatch_case_insensitive upperDocxFile).2.1 (by decide),
   (C10_dispatch_case_insensitive upperTxtFile).2.2 (by decide)⟩

/-! ## LLM client (`call_llm`, src/AI_HR.py lines 139-169)

The network is modelled as a function from the JSON payload to the HTTP
response; `requests.post` always sends the same URL and headers, so the
payload is the only varying input.  The response record carries the fields
the source reads: `status_code`, `text`, and the extracted
`json()["choices"][0]["message"]["content"]`. -/

inductive LlmError where
  | missingApiKey
  | httpError (status : Nat)
deriving DecidableEq

/-- The JSON payload `call_llm` posts: model, the two role/content messages,
`temperature=0.0`, `top_p=1.0`, and the optional `seed` field.  The float
constants are modelled as rationals. -/
structure LlmPayload where
  model : Str
  messages : List (Str × Str)
  temperature : ℚ
  top_p : ℚ
  seed : Option Nat
deriving DecidableEq

/-- The parts of an HTTP response the source inspects. -/
structure HttpResponse where
  status_code : Nat
  text : Str
  content : Str

/-- The fixed system message of the payload. -/
def systemMessage : Str × Str :=
  ("system".data, "You are a strict, evidence-based HR screening analyst.".data)

/-- The payload of the first request: seed 42 included. -/
def initialPayload (prompt mdl : Str) : LlmPayload :=
  ⟨mdl, [systemMessage, ("user".data, prompt)], 0, 1, some 42⟩

/-- `payload.pop("seed", None)`: same payload with the seed field removed. -/
def dropSeed (p : LlmPayload) : LlmPayload :=
  ⟨p.model, p.messages, p.temperature, p.top_p, none⟩

/-- `r.raise_for_status()` followed by the success path
`r.json()["choices"][0]["message"]["content"].strip()`: statuses 400-599
raise, anything else returns the stripped message content. -/
def responseResult (r : HttpResponse) : Except LlmError Str :=
  if 400 ≤ r.status_code ∧ r.status_code < 600 then
    Except.error (LlmError.httpError r.status_code)
  else Except.ok (pyStrip r.content)

/-- Embedding of `call_llm`.  Returns the list of payloads posted, in order,
together with the result.  A missing key raises before any request; a 400
response whose text mentions `"seed"` triggers exactly one retry with the
seed field popped; the final response goes through `raise_for_status`. -/
def call_llm (api_key : Str) (backend : LlmPayload → HttpResponse)
    (prompt mdl : Str) : List LlmPayload × Except LlmError Str :=
  if api_key = [] then ([], Except.error LlmError.missingApiKey)
  else if (backend (initialPayload prompt mdl)).status_code = 400
      ∧ "seed".data <:+: (backend (initialPayload prompt mdl)).text then
    ([initialPayload prompt mdl, dropSeed (initialPayload prompt mdl)],
      responseResult (backend (dropSeed (initialPayload prompt mdl))))
  else
    ([initialPayload prompt mdl], responseResult (backend (initialPayload prompt mdl)))

/-- C3: if the first response is the seed rejection (status 400 with "seed"
in the body text), exactly two requests are posted, the second being the
first payload with only the seed removed; any other non-success status
(400-599) posts exactly one request and surfaces a fatal error. -/
theorem C3_seed_retry_once (api_key : Str) (backend : LlmPayload → HttpResponse)
    (prompt mdl : Str) (hkey : api_key ≠ []) :
    (((backend (initialPayload prompt mdl)).status_code = 400
        ∧ "seed".data <:+: (backend (initialPayload prompt mdl)).text) →
      (call_llm api_key backend prompt mdl).1
        = [initialPayload prompt mdl, dropSeed (initialPayload prompt mdl)])
    ∧ ((400 ≤ (backend (initialPayload prompt mdl)).status_code
        ∧ (backend (initialPayload prompt mdl)).status_code < 600
        ∧ ¬((backend (initialPayload prompt mdl)).status_code = 400
            ∧ "seed".data <:+: (backend (initialPayload prompt mdl)).text)) →
      (call_llm api_key backend prompt mdl).1 = [initialPayload prompt mdl]
      ∧ (call_llm api_key backend prompt mdl).2
          = Except.error (LlmError.httpError (backend (initialPayload prompt mdl)).status_code))
    ∧ ((dropSeed (initialPayload prompt mdl)).model = (initialPayload prompt mdl).model
        ∧ (dropSeed (initialPayload prompt mdl)).messages = (initialPayload prompt mdl).messages
        ∧ (dropSeed (initialPayload prompt mdl)).temperature = (initialPayload prompt mdl).temperature
        ∧ (dropSeed (initialPayload prompt mdl)).top_p = (initialPayload prompt mdl).top_p
        ∧ (dropSeed (initialPayload prompt mdl)).seed = none) := by
  refine ⟨?_, ?_, rfl, rfl, rfl, rfl, rfl⟩
  · intro hcond
    unfold call_llm
    rw [if_neg hkey, if_pos hcond]
  · intro hcond
    obtain ⟨h4, h6, hns⟩ := hcond
    unfold call_llm
    rw [if_neg hkey, if_neg hns]
    exact ⟨rfl, by unfold responseResult; rw [if_pos ⟨h4, h6⟩]⟩

/-- A backend that rejects any payload carrying a seed with a 400 response
mentioning "seed", and accepts the retried payload. -/
def seedRejectingBackend : LlmPayload → HttpResponse := fun p =>
  match p.seed with
  | some _ => ⟨400, "param seed is not supported".data, []⟩
  | none => ⟨200, "OK".data, " report ".data⟩

/-- A backend that always fails with a 500 response. -/
def alwaysErrorBackend : LlmPayload → HttpResponse := fun _ =>
  ⟨500, "internal server error".data, []⟩

theorem C3_witness :
    (call_llm "k".data seedRejectingBackend "p".data "m".data).1
      = [initialPayload "p".data "m".data, dropSeed (initialPayload "p".data "m".data)]
    ∧ (call_llm "k".data alwaysErrorBackend "p".data "m".data).1
        = [initialPayload "p".data "m".data]
    ∧ (call_llm "k".data alwaysErrorBackend "p".data "m".data).2
        = Except.error (LlmError.httpError 500) := by
  refine ⟨?_, ?_, ?_⟩
  · exact (C3_seed_retry_once "k".data seedRejectingBackend "p".data "m".data
      (by decide)).1 (by constructor <;> decide)
  · exact ((C3_seed_retry_once "k".data alwaysErrorBackend "p".data "m".data
      (by decide)).2.1 (by refine ⟨by decide, by decide, ?_⟩; rintro ⟨h, -⟩; revert h; decide)).1
  · exact ((C3_seed_retry_once "k".data alwaysErrorBackend "p".data "m".data
      (by decide)).2.1 (by refine ⟨by decide, by decide, ?_⟩; rintro ⟨h, -⟩; revert h; decide)).2

/-- C7: with the bearer credential absent (Streamlit secrets default to the
empty string), `call_llm` fails with the configuration error and posts no
request at all, for every backend, prompt and model. -/
theorem C7_missing_key_no_request (backend : LlmPayload → HttpResponse) (prompt mdl : Str) :
    call_llm [] backend prompt mdl = ([], Except.error LlmError.missingApiKey) := by
  unfold call_llm
  rw [if_pos rfl]

/-! ## PDF report renderer (`generate_pdf`, src/AI_HR.py lines 219-250)

The flowable story the source hands to `doc.build` is embedded; paragraph
styles are represented by the constructor (title vs body), and the float
spacer sizes by exact rationals. -/

inductive Flowable where
  | titlePara (text : Str)
  | bodyPara (text : Str)
  | spacer (width height : ℚ)
deriving DecidableEq

/-- reportlab's `inch` unit (72 points). -/
def inch : ℚ := 72

/-- The fixed title paragraph text. -/
def reportTitle : Str := "HireMind AI – Professional HR Screening Report".data

/-- Classification of one report line, after the loop's `line.rstrip()`:
blank after stripping becomes a spacer, anything else a sanitized body
paragraph. -/
def classifyLine (line : Str) : Flowable :=
  if pyStrip (pyRstrip line) = [] then Flowable.spacer 1 (12 / 100 * inch)
  else Flowable.bodyPara (sanitize_for_pdf (some (pyRstrip line)))

/-- Embedding of the story construction in `generate_pdf`: the fixed title
paragraph and quarter-inch spacer, then one flowable per line of
`report_text.split("\n")`. -/
def generate_pdf_story (report_text : Str) : List Flowable :=
  (pySplitNl report_text).foldl
    (fun story line =>
      if pyStrip (pyRstrip line) = [] then story ++ [Flowable.spacer 1 (12 / 100 * inch)]
      else story ++ [Flowable.bodyPara (sanitize_for_pdf (some (pyRstrip line)))])
    [Flowable.titlePara reportTitle, Flowable.spacer 1 (1 / 4 * inch)]

/-- A line is blank for the renderer when it is empty after trimming. -/
def isBlankLine (line : Str) : Bool := (pyStrip (pyRstrip line)).isEmpty

def isSpacer : Flowable → Bool
  | Flowable.spacer _ _ => true
  | _ => false

/-- Number of vertical-spacing units in a story. -/
def countSpacers (story : List Flowable) : Nat := story.countP isSpacer

theorem story_foldl (lines : List Str) (st : List Flowable) :
    lines.foldl
      (fun story line =>
        if pyStrip (pyRstrip line) = [] then story ++ [Flowable.spacer 1 (12 / 100 * inch)]
        else story ++ [Flowable.bodyPara (sanitize_for_pdf (some (pyRstrip line)))])
      st
      = st ++ lines.map classifyLine := by
  induction lines generalizing st with
  | nil => simp
  | cons l ls ih =>
    rw [List.foldl_cons, ih]
    by_cases hc : pyStrip (pyRstrip l) = []
    · simp [classifyLine, hc, List.append_assoc]
    · simp [classifyLine, hc, List.append_assoc]

theorem generate_pdf_story_eq (r : Str) :
    generate_pdf_story r
      = [Flowable.titlePara reportTitle, Flowable.spacer 1 (1 / 4 * inch)]
        ++ (pySplitNl r).map classifyLine := by
  unfold generate_pdf_story
  exact story_foldl _ _

theorem isSpacer_classifyLine (l : Str) : isSpacer (classifyLine l) = isBlankLine l := by
  unfold classifyLine isBlankLine
  by_cases hc : pyStrip (pyRstrip l) = []
  · simp [hc, isSpacer]
  · simp [hc, isSpacer, List.isEmpty_iff]

theorem countSpacers_story (r : Str) :
    countSpacers (generate_pdf_story r) = 1 + (pySplitNl r).countP isBlankLine := by
  rw [generate_pdf_story_eq]
  unfold countSpacers
  rw [List.countP_append, List.countP_map]
  have h1 : List.countP isSpacer
      [Flowable.titlePara reportTitle, Flowable.spacer 1 (1 / 4 * inch)] = 1 := by decide
  rw [h1]
  congr 1
  exact List.countP_congr (fun l _ => by rw [Function.comp_apply, isSpacer_classifyLine])

/-- C8: the renderer splits the report on newlines preserving order, maps a
line that is blank after trimming to one spacing unit and any other line to
one sanitized body paragraph, always prepending the fixed title paragraph
(and its quarter-inch gap); consequently a report with an internal blank
line yields strictly more vertical-spacing units than a report with no blank
lines and the same non-blank lines. -/
theorem C8_line_classification :
    (∀ r : Str, generate_pdf_story r
        = [Flowable.titlePara reportTitle, Flowable.spacer 1 (1 / 4 * inch)]
          ++ (pySplitNl r).map classifyLine)
    ∧ ∀ r1 r2 : Str,
        (pySplitNl r1).filter (fun l => !isBlankLine l)
            = (pySplitNl r2).filter (fun l => !isBlankLine l) →
        (pySplitNl r1).any isBlankLine = true →
        (pySplitNl r2).all (fun l => !isBlankLine l) = true →
        countSpacers (generate_pdf_story r2) < countSpacers (generate_pdf_story r1) := by
  refine ⟨generate_pdf_story_eq, ?_⟩
  intro r1 r2 _ hblank hnoblank
  rw [countSpacers_story, countSpacers_story]
  have h1 : 0 < (pySplitNl r1).countP isBlankLine := by
    rw [List.countP_pos_iff]
    rw [List.any_eq_true] at hblank
    exact hblank
  have h2 : (pySplitNl r2).countP isBlankLine = 0 := by
    rw [List.countP_eq_zero]
    rw [List.all_eq_true] at hnoblank
    intro a ha
    have := hnoblank a ha
    simp at this
    simp [this]
  omega

theorem C8_witness :
    countSpacers (generate_pdf_story "a\nb".data)
      < countSpacers (generate_pdf_story "a\n\nb".data) :=
  C8_line_classification.2 "a\n\nb".data "a\nb".data (by decide) (by decide) (by decide)

/-! ## Lemmas about the replace scan

`replaceNE` is the left-to-right scan of Python's `str.replace`.  The lemmas
below localize its behaviour: it is the identity when the pattern never
occurs, it consumes a leading occurrence, and it distributes over an append
whose boundary character cannot belong to the pattern. -/

theorem replaceNE_nil (p : Char) (ps rep : Str) : replaceNE p ps rep [] = [] := by
  simp [replaceNE]

theorem replaceNE_cons_pos {p : Char} {ps : Str} {c : Char} {s : Str} (rep : Str)
    (h : (p :: ps).isPrefixOf (c :: s) = true) :
    replaceNE p ps rep (c :: s) = rep ++ replaceNE p ps rep (s.drop ps.length) := by
  rw [replaceNE, if_pos h]

theorem replaceNE_cons_neg {p : Char} {ps : Str} {c : Char} {s : Str} (rep : Str)
    (h : ¬ (p :: ps).isPrefixOf (c :: s) = true) :
    replaceNE p ps rep (c :: s) = c :: replaceNE p ps rep s := by
  rw [replaceNE, if_neg h]

theorem replaceNE_head (p : Char) (ps rep t : Str) :
    replaceNE p ps rep ((p :: ps) ++ t) = rep ++ replaceNE p ps rep t := by
  have h : (p :: ps).isPrefixOf (p :: (ps ++ t)) = true := by
    rw [List.isPrefixOf_iff_prefix]
    exact ⟨t, rfl⟩
  rw [List.cons_append, replaceNE_cons_pos rep h, List.drop_left]

theorem replaceNE_self (p : Char) (ps rep : Str) : replaceNE p ps rep (p :: ps) = rep := by
  have h := replaceNE_head p ps rep []
  rw [List.append_nil, replaceNE_nil, List.append_nil] at h
  exact h

theorem replaceNE_id (p : Char) (ps rep : Str) :
    ∀ s : Str, ¬ (p :: ps) <:+: s → replaceNE p ps rep s = s := by
  intro s
  induction s with
  | nil => intro _; simp [replaceNE]
  | cons c s ih =>
    intro h
    have hm : ¬ (p :: ps).isPrefixOf (c :: s) = true := by
      intro hp
      exact h (List.IsPrefix.isInfix (List.isPrefixOf_iff_prefix.mp hp))
    rw [replaceNE_cons_neg rep hm]
    congr 1
    exact ih (fun hi => h (List.infix_cons hi))

theorem replaceNE_split_last_aux (p : Char) (ps rep : Str) (d : Char) (hd : d ∉ p :: ps) :
    ∀ (n : Nat) (a b : Str), a.length ≤ n → a.getLast? = some d →
      replaceNE p ps rep (a ++ b) = replaceNE p ps rep a ++ replaceNE p ps rep b := by
  intro n
  induction n with
  | zero =>
    intro a b hlen hlast
    have ha : a = [] := List.eq_nil_of_length_eq_zero (Nat.le_zero.mp hlen)
    subst ha
    simp at hlast
  | succ n ih =>
    intro a b hlen hlast
    cases a with
    | nil => simp at hlast
    | cons c a' =>
      by_cases hm : (p :: ps).isPrefixOf (c :: (a' ++ b)) = true
      · have hpre : (p :: ps) <+: (c :: a') ++ b := by
          rw [List.cons_append]
          exact List.isPrefixOf_iff_prefix.mp hm
        have hlen2 : (p :: ps).length ≤ (c :: a').length := by
          by_contra hgt
          push_neg at hgt
          have hpr2 : (c :: a') <+: (p :: ps) :=
            List.prefix_of_prefix_length_le (List.prefix_append _ _) hpre (Nat.le_of_lt hgt)
          exact hd (hpr2.subset (List.mem_of_getLast?_eq_some hlast))
        have hpr3 : (p :: ps) <+: (c :: a') :=
          List.prefix_of_prefix_length_le hpre (List.prefix_append _ _) hlen2
        obtain ⟨a₂, ha₂⟩ := hpr3
        by_cases h2 : a₂ = []
        · subst h2
          rw [List.append_nil] at ha₂
          rw [← ha₂, replaceNE_head, replaceNE_self]
        · have hlast2 : a₂.getLast? = some d := by
            rw [← ha₂, List.getLast?_append] at hlast
            cases hg : a₂.getLast? with
            | none => exact absurd (List.getLast?_eq_none_iff.mp hg) h2
            | some x => rw [hg] at hlast; simpa using hlast
          have hlen3 : a₂.length ≤ n := by
            have hL := congrArg List.length ha₂
            simp [List.length_append, List.length_cons] at hL
            simp [List.length_cons] at hlen
            omega
          rw [← ha₂, List.append_assoc, replaceNE_head, replaceNE_head,
            ih a₂ b hlen3 hlast2]
          simp [List.append_assoc]
      · cases a' with
        | nil =>
          have hc : c = d := by simpa using hlast
          have hm1 : ¬ (p :: ps).isPrefixOf [c] = true := by
            intro hp
            rw [List.isPrefixOf_iff_prefix] at hp
            have hl : (p :: ps).length ≤ 1 := hp.length_le
            have hps : ps = [] := by
              simpa using hl
            subst hps
            obtain ⟨t, ht⟩ := hp
            have hpc : p = c := by
              have := congrArg (fun l => List.head? l) ht
              simpa using this
            exact hd (by rw [hpc, hc]; exact List.mem_cons_self _ _)
          rw [List.nil_append] at hm
          rw [List.cons_append, List.nil_append, replaceNE_cons_neg rep hm,
            replaceNE_cons_neg rep hm1, replaceNE_nil]
          simp
        | cons x a'' =>
          have hlast2 : (x :: a'').getLast? = some d := by
            rw [List.getLast?_cons_cons] at hlast
            exact hlast
          have hlen2 : (x :: a'').length ≤ n := by
            simp [List.length_cons] at hlen ⊢
            omega
          have hm2 : ¬ (p :: ps).isPrefixOf (c :: x :: a'') = true := by
            intro hp
            apply hm
            rw [List.isPrefixOf_iff_prefix] at hp ⊢
            exact hp.trans ⟨b, rfl⟩
          rw [List.cons_append, replaceNE_cons_neg rep hm,
            ih (x :: a'') b hlen2 hlast2, replaceNE_cons_neg rep hm2]
          simp

theorem replaceNE_split_last (p : Char) (ps rep : Str) {a : Str} (b : Str) {d : Char}
    (hd : d ∉ p :: ps) (ha : a.getLast? = some d) :
    replaceNE p ps rep (a ++ b) = replaceNE p ps rep a ++ replaceNE p ps rep b :=
  replaceNE_split_last_aux p ps rep d hd a.length a b le_rfl ha

theorem replaceNE_split_head_aux (p : Char) (ps rep : Str) (d : Char) (hd : d ∉ p :: ps) :
    ∀ (n : Nat) (a b : Str), a.length ≤ n → b.head? = some d →
      replaceNE p ps rep (a ++ b) = replaceNE p ps rep a ++ replaceNE p ps rep b := by
  intro n
  induction n with
  | zero =>
    intro a b hlen _
    have ha : a = [] := List.eq_nil_of_length_eq_zero (Nat.le_zero.mp hlen)
    subst ha
    rw [List.nil_append, replaceNE_nil, List.nil_append]
  | succ n ih =>
    intro a b hlen hb
    cases a with
    | nil => rw [List.nil_append, replaceNE_nil, List.nil_append]
    | cons c a' =>
      by_cases hm : (p :: ps).isPrefixOf (c :: (a' ++ b)) = true
      · have hpre : (p :: ps) <+: (c :: a') ++ b := by
          rw [List.cons_append]
          exact List.isPrefixOf_iff_prefix.mp hm
        have hlen2 : (p :: ps).length ≤ (c :: a').length := by
          by_contra hgt
          push_neg at hgt
          have hpr2 : (c :: a') <+: (p :: ps) :=
            List.prefix_of_prefix_length_le (List.prefix_append _ _) hpre (Nat.le_of_lt hgt)
          obtain ⟨pat₂, hp₂⟩ := hpr2
          have hp2ne : pat₂ ≠ [] := by
            intro h0
            rw [h0, List.append_nil] at hp₂
            have hLL := congrArg List.length hp₂
            simp [List.length_cons] at hLL hgt
            omega
          have hbp : pat₂ <+: b := by
            rw [← hp₂] at hpre
            exact (List.prefix_append_right_inj _).mp hpre
          cases pat₂ with
          | nil => exact absurd rfl hp2ne
          | cons e es =>
            obtain ⟨t, ht⟩ := hbp
            have hhead : b.head? = some e := by
              rw [← ht]
              simp
            rw [hb] at hhead
            have he : e = d := (Option.some.inj hhead).symm
            apply hd
            rw [← hp₂, he]
            exact List.mem_append_right _ (List.mem_cons_self _ _)
        have hpr3 : (p :: ps) <+: (c :: a') :=
          List.prefix_of_prefix_length_le hpre (List.prefix_append _ _) hlen2
        obtain ⟨a₂, ha₂⟩ := hpr3
        by_cases h2 : a₂ = []
        · subst h2
          rw [List.append_nil] at ha₂
          rw [← ha₂, replaceNE_head, replaceNE_self]
        · have hlen3 : a₂.length ≤ n := by
            have hL := congrArg List.length ha₂
            simp [List.length_append, List.length_cons] at hL
            simp [List.length_cons] at hlen
            omega
          rw [← ha₂, List.append_assoc, replaceNE_head, replaceNE_head,
            ih a₂ b hlen3 hb]
          simp [List.append_assoc]
      · have hm2 : ¬ (p :: ps).isPrefixOf (c :: a') = true := by
          intro hp
          apply hm
          rw [List.isPrefixOf_iff_prefix] at hp ⊢
          exact hp.trans ⟨b, rfl⟩
        have hlen2 : a'.length ≤ n := by
          simp [List.length_cons] at hlen
          omega
        rw [List.cons_append, replaceNE_cons_neg rep hm, ih a' b hlen2 hb,
          replaceNE_cons_neg rep hm2]
        simp

theorem replaceNE_split_head (p : Char) (ps rep : Str) (a : Str) {b : Str} {d : Char}
    (hd : d ∉ p :: ps) (hb : b.head? = some d) :
    replaceNE p ps rep (a ++ b) = replaceNE p ps rep a ++ replaceNE p ps rep b :=
  replaceNE_split_head_aux p ps rep d hd a.length a b le_rfl hb

/-- Occurrence localization: an occurrence of a pattern that avoids the
boundary character of an append lies entirely in one of the two parts. -/
theorem infix_of_append {pat a b : Str} {d : Char} (hd : d ∉ pat)
    (hbound : a.getLast? = some d ∨ b.head? = some d) :
    pat <:+: a ++ b → pat <:+: a ∨ pat <:+: b := by
  intro hin
  obtain ⟨u, v, huv⟩ := hin
  rcases le_or_lt (u.length + pat.length) a.length with hle | hgt
  · left
    have h1 : u ++ pat <+: a ++ b := ⟨v, huv⟩
    have h2 : u ++ pat <+: a :=
      List.prefix_of_prefix_length_le h1 (List.prefix_append a b)
        (by simp [List.length_append]; omega)
    obtain ⟨w, hw⟩ := h2
    exact ⟨u, w, hw⟩
  · rcases le_or_lt a.length u.length with hau | hua
    · right
      have h1 : a <+: u :=
        List.prefix_of_prefix_length_le (List.prefix_append a b)
          ⟨pat ++ v, by rw [← huv]; simp [List.append_assoc]⟩ hau
      obtain ⟨u₂, hu₂⟩ := h1
      have hab : a ++ (u₂ ++ pat ++ v) = a ++ b := by
        rw [← huv, ← hu₂]
        simp [List.append_assoc]
      exact ⟨u₂, v, List.append_cancel_left hab⟩
    · exfalso
      have hdpat : ∀ i, u.length ≤ i → i < u.length + pat.length →
          (a ++ b)[i]? = pat[i - u.length]? := by
        intro i h1 h2
        rw [← huv,
          List.getElem?_append_left (show i < (u ++ pat).length by
            simp [List.length_append]; omega),
          List.getElem?_append_right h1]
      rcases hbound with ha | hb
      · have hia : a.length - 1 < a.length := by omega
        have h1 : (a ++ b)[a.length - 1]? = some d := by
          rw [List.getElem?_append_left hia, ← List.getLast?_eq_getElem?]
          exact ha
        have h2 := hdpat (a.length - 1) (by omega) (by omega)
        rw [h1] at h2
        exact hd (List.getElem?_mem h2.symm)
      · have h1 : (a ++ b)[a.length]? = some d := by
          rw [List.getElem?_append_right (le_refl a.length)]
          simpa [List.head?_eq_getElem?] using hb
        have h2 := hdpat a.length (by omega) (by omega)
        rw [h1] at h2
        exact hd (List.getElem?_mem h2.symm)

/-! ## Absence of double angle brackets -/

/-- No two adjacent characters of the string are both `<`. -/
def noDoubleLt : Str → Bool
  | [] => true
  | [_] => true
  | a :: b :: t => !(a == '<' && b == '<') && noDoubleLt (b :: t)

theorem noDoubleLt_tail {c : Char} {s : Str} (hs : s ≠ []) (h : noDoubleLt (c :: s) = true) :
    noDoubleLt s = true := by
  cases s with
  | nil => exact absurd rfl hs
  | cons x t =>
    simp [noDoubleLt] at h
    exact h.2

theorem noDoubleLt_no_occ (r : Str) :
    ∀ (u v s : Str), noDoubleLt s = true → u ++ ('<' :: '<' :: r) ++ v = s → False := by
  intro u
  induction u with
  | nil =>
    intro v s h heq
    rw [List.nil_append] at heq
    rw [← heq] at h
    simp [noDoubleLt] at h
  | cons c u ih =>
    intro v s h heq
    rw [List.cons_append] at heq
    cases s with
    | nil => exact absurd heq (by simp)
    | cons c' s' =>
      have h1 : c = c' ∧ u ++ ('<' :: '<' :: r) ++ v = s' := by
        have := List.cons.injEq c (u ++ ('<' :: '<' :: r) ++ v) c' s' ▸ heq
        exact ⟨(List.cons.inj heq).1, (List.cons.inj heq).2⟩
      have hne : s' ≠ [] := by
        rw [← h1.2]
        simp
      exact ih v s' (noDoubleLt_tail hne h) h1.2

theorem not_infix_of_noDoubleLt {r s : Str} (h : noDoubleLt s = true) :
    ¬ ('<' :: '<' :: r) <:+: s := by
  intro hin
  obtain ⟨u, v, huv⟩ := hin
  exact noDoubleLt_no_occ r u v s h huv

/-! ## Prompt assembly (`BASE_PROMPT` and its substitution, src/AI_HR.py lines 22-134 and 293)

`BASE_PROMPT` is the triple-quoted template of the source, written here as the
concatenation of its lines; the two placeholder tokens are split out so the
substitution can be reasoned about. -/

/-- The template text before the `<<JOB_DESCRIPTION>>` placeholder, line by
line, exactly as in the source. -/
def prePart : Str :=
  "\n".data
  ++ "You are a Senior HR Talent Acquisition Specialist and Workforce Strategist.\n".data
  ++ "\n".data
  ++ "You will screen ONE candidate CV against ONE Job Description.\n".data
  ++ "\n".data
  ++ "STRICT RULES (VERY IMPORTANT):\n".data
  ++ "1) Evidence-based ONLY: if a skill/tool/experience is not clearly mentioned in the CV text, treat it as NOT evidenced.\n".data
  ++ "2) No guessing, no assumptions.\n".data
  ++ "3) Output must be clean structured plain text (NOT JSON, NOT markdown).\n".data
  ++ "4) Consistency requirement:\n".data
  ++ "   - Use the scoring rubric below and show the score breakdown table.\n".data
  ++ "   - Your final Total Score MUST equal the sum of the breakdown.\n".data
  ++ "   - If evidence is weak/unclear, score conservatively.\n".data
  ++ "5) IMPORTANT: When you list \"Matched Skills\" and \"Missing/Weak Skills\":\n".data
  ++ "   - Only list skills explicitly required in the Job Description.\n".data
  ++ "   - Matched = clearly present in CV (explicit wording or very direct equivalent).\n".data
  ++ "   - Missing/Weak = required by JD but not found OR only vaguely implied.\n".data
  ++ "\n".data
  ++ "=============================\n".data
  ++ "1) EXECUTIVE SUMMARY\n".data
  ++ "=============================\n".data
  ++ "- 4–6 lines maximum.\n".data
  ++ "- Mention strongest alignment and biggest concern.\n".data
  ++ "\n".data
  ++ "=============================\n".data
  ++ "2) REQUIREMENT-BY-REQUIREMENT MATCH (from JD)\n".data
  ++ "=============================\n".data
  ++ "Create a table-like list of the JD key requirements and mark each one:\n".data
  ++ "- Status: MATCHED / PARTIAL / MISSING\n".data
  ++ "- Evidence: quote short phrase(s) from CV that prove it (max 12 words each).\n".data
  ++ "Example format per requirement:\n".data
  ++ "- Requirement: <...>\n".data
  ++ "  Status: MATCHED\n".data
  ++ "  Evidence: \"<short quote>\", \"<short quote>\"\n".data
  ++ "\n".data
  ++ "Then:\n".data
  ++ "A) Matched Requirements (bullet list)\n".data
  ++ "B) Missing/Weak Requirements (bullet list)\n".data
  ++ "\n".data
  ++ "=============================\n".data
  ++ "3) TOOLS & SYSTEMS FIT\n".data
  ++ "=============================\n".data
  ++ "- Tools mentioned in JD that appear in CV (with evidence quotes).\n".data
  ++ "- Tools mentioned in JD that do NOT appear in CV.\n".data
  ++ "\n".data
  ++ "=============================\n".data
  ++ "4) EXPERIENCE & SENIORITY ANALYSIS\n".data
  ++ "=============================\n".data
  ++ "- Extract years of experience from CV if possible. If not explicit, say \"Not clearly stated\".\n".data
  ++ "- Compare to JD seniority/years.\n".data
  ++ "- Mention role scope and complexity.\n".data
  ++ "\n".data
  ++ "=============================\n".data
  ++ "5) PERFORMANCE & IMPACT INDICATORS\n".data
  ++ "=============================\n".data
  ++ "- Any measurable achievements (numbers/metrics). If none, say \"No measurable metrics found\".\n".data
  ++ "\n".data
  ++ "=============================\n".data
  ++ "6) BEHAVIORAL & SOFT SKILLS (evidence-based)\n".data
  ++ "=============================\n".data
  ++ "- List only what is evidenced (teamwork, communication, leadership, stakeholder mgmt, etc.)\n".data
  ++ "\n".data
  ++ "=============================\n".data
  ++ "7) RISK ASSESSMENT\n".data
  ++ "=============================\n".data
  ++ "Classify Risk Level: Low / Medium / High\n".data
  ++ "Provide 3–5 concrete risks (evidence-based).\n".data
  ++ "\n".data
  ++ "=============================\n".data
  ++ "8) SCORING MODEL (TOTAL 100)\n".data
  ++ "=============================\n".data
  ++ "Score using this rubric:\n".data
  ++ "- Skills Match (0–30)\n".data
  ++ "- Experience Fit (0–20)\n".data
  ++ "- Domain & Tools Fit (0–20)\n".data
  ++ "- Impact & Achievements (0–15)\n".data
  ++ "- Behavioral & Leadership Fit (0–10)\n".data
  ++ "- Risk Adjustment (-5 to +5)\n".data
  ++ "\n".data
  ++ "You MUST output a breakdown table exactly like this:\n".data
  ++ "\n".data
  ++ "Score Breakdown:\n".data
  ++ "Skills Match: XX/30\n".data
  ++ "Experience Fit: XX/20\n".data
  ++ "Domain & Tools Fit: XX/20\n".data
  ++ "Impact & Achievements: XX/15\n".data
  ++ "Behavioral & Leadership Fit: XX/10\n".data
  ++ "Risk Adjustment: XX/5\n".data
  ++ "-------------------------\n".data
  ++ "Total Score: XX/100\n".data
  ++ "\n".data
  ++ "Then:\n".data
  ++ "Hiring Signal: Strong Hire | Hire | Conditional | Not Recommended\n".data
  ++ "Explain in max 5 lines WHY the signal fits the score.\n".data
  ++ "\n".data
  ++ "=============================\n".data
  ++ "9) INTERVIEW STRATEGY\n".data
  ++ "=============================\n".data
  ++ "- 5 Technical Questions (focused on missing/partial requirements)\n".data
  ++ "- 3 Behavioral Questions\n".data
  ++ "- 2 Risk Validation Questions\n".data
  ++ "\n".data
  ++ "=============================\n".data
  ++ "10) FINAL HR RECOMMENDATION\n".data
  ++ "=============================\n".data
  ++ "- 3–6 lines, direct recommendation and next step.\n".data
  ++ "\n".data
  ++ "Job Description:\n".data

/-- The `<<JOB_DESCRIPTION>>` placeholder token. -/
def jdPlaceholder : Str := "<<JOB_DESCRIPTION>>".data

/-- The `<<CANDIDATE_CV>>` placeholder token. -/
def cvPlaceholder : Str := "<<CANDIDATE_CV>>".data

/-- The template text between the two placeholders. -/
def midPart : Str := "\n\nCandidate CV:\n".data

/-- The template text after the `<<CANDIDATE_CV>>` placeholder. -/
def postPart : Str := "\n".data

/-- The full prompt template of the source. -/
def BASE_PROMPT : Str := prePart ++ jdPlaceholder ++ midPart ++ cvPlaceholder ++ postPart

/-- Embedding of the prompt assembly at line 293:
`BASE_PROMPT.replace("<<JOB_DESCRIPTION>>", jd_text).replace("<<CANDIDATE_CV>>", cv_text)`. -/
def assemble_prompt (jd cv : Str) : Str :=
  pyReplace (pyReplace BASE_PROMPT jdPlaceholder jd) cvPlaceholder cv

/-- The placeholder tails, for exposing the patterns to the replace scan. -/
def jdTail : Str := "<JOB_DESCRIPTION>>".data

def cvTail : Str := "<CANDIDATE_CV>>".data

/-- The template text after the JD placeholder, as one string. -/
def restAfterJd : Str := midPart ++ cvPlaceholder ++ postPart

/-! ### Concrete facts about the template pieces -/

theorem jdPlaceholder_cons : jdPlaceholder = '<' :: jdTail := by decide

theorem jdPlaceholder_cons2 : jdPlaceholder = '<' :: '<' :: "JOB_DESCRIPTION>>".data := by
  decide

theorem cvPlaceholder_cons : cvPlaceholder = '<' :: cvTail := by decide

theorem cvPlaceholder_cons2 : cvPlaceholder = '<' :: '<' :: "CANDIDATE_CV>>".data := by
  decide

theorem prePart_noDoubleLt : noDoubleLt prePart = true := by decide

theorem prePart_last : prePart.getLast? = some '\n' := by
  unfold prePart
  rw [List.getLast?_append]
  rw [show ("Job Description:\n".data).getLast? = some '\n' from by decide]
  rfl

theorem midPart_last : midPart.getLast? = some '\n' := by decide

theorem midPart_head : midPart.head? = some '\n' := by decide

theorem postPart_head : postPart.head? = some '\n' := by decide

theorem restAfterJd_head : restAfterJd.head? = some '\n' := by decide

theorem nl_not_jdpat : '\n' ∉ ('<' :: jdTail) := by decide

theorem nl_not_cvpat : '\n' ∉ ('<' :: cvTail) := by decide

theorem jdPH_not_pre : ¬ jdPlaceholder <:+: prePart := by
  rw [jdPlaceholder_cons2]
  exact not_infix_of_noDoubleLt prePart_noDoubleLt

theorem cvPH_not_pre : ¬ cvPlaceholder <:+: prePart := by
  rw [cvPlaceholder_cons2]
  exact not_infix_of_noDoubleLt prePart_noDoubleLt

theorem jdPH_not_mid : ¬ jdPlaceholder <:+: midPart := by decide

theorem jdPH_not_post : ¬ jdPlaceholder <:+: postPart := by decide

theorem cvPH_not_mid : ¬ cvPlaceholder <:+: midPart := by decide

theorem cvPH_not_post : ¬ cvPlaceholder <:+: postPart := by decide

theorem jdpat_not_in_rest : ¬ ('<' :: jdTail) <:+: restAfterJd := by decide

/-! ### The substitution in closed form -/

theorem BASE_PROMPT_decomp :
    BASE_PROMPT = prePart ++ (jdPlaceholder ++ restAfterJd) := by
  unfold BASE_PROMPT restAfterJd
  simp [List.append_assoc]

theorem restAfterJd_decomp : restAfterJd = midPart ++ (cvPlaceholder ++ postPart) := by
  unfold restAfterJd
  rw [List.append_assoc]

theorem assemble_step1 (jd : Str) :
    pyReplace BASE_PROMPT jdPlaceholder jd = prePart ++ (jd ++ restAfterJd) := by
  have h0 : pyReplace BASE_PROMPT jdPlaceholder jd = replaceNE '<' jdTail jd BASE_PROMPT := by
    rw [jdPlaceholder_cons]
    rfl
  have hpre : ¬ ('<' :: jdTail) <:+: prePart := by
    rw [← jdPlaceholder_cons]
    exact jdPH_not_pre
  rw [h0, BASE_PROMPT_decomp,
    replaceNE_split_last '<' jdTail jd (jdPlaceholder ++ restAfterJd) nl_not_jdpat prePart_last,
    replaceNE_id '<' jdTail jd prePart hpre,
    jdPlaceholder_cons, replaceNE_head,
    replaceNE_id '<' jdTail jd restAfterJd jdpat_not_in_rest]

theorem assemble_step2 (jd cv : Str) (hcv : ¬ cvPlaceholder <:+: jd) :
    pyReplace (prePart ++ (jd ++ restAfterJd)) cvPlaceholder cv
      = prePart ++ (jd ++ (midPart ++ (cv ++ postPart))) := by
  have h0 : pyReplace (prePart ++ (jd ++ restAfterJd)) cvPlaceholder cv
      = replaceNE '<' cvTail cv (prePart ++ (jd ++ restAfterJd)) := by
    rw [cvPlaceholder_cons]
    rfl
  have hpre : ¬ ('<' :: cvTail) <:+: prePart := by
    rw [← cvPlaceholder_cons]
    exact cvPH_not_pre
  have hjd : ¬ ('<' :: cvTail) <:+: jd := by
    rw [← cvPlaceholder_cons]
    exact hcv
  have hmid : ¬ ('<' :: cvTail) <:+: midPart := by
    rw [← cvPlaceholder_cons]
    exact cvPH_not_mid
  have hpost : ¬ ('<' :: cvTail) <:+: postPart := by
    rw [← cvPlaceholder_cons]
    exact cvPH_not_post
  rw [h0,
    replaceNE_split_last '<' cvTail cv (jd ++ restAfterJd) nl_not_cvpat prePart_last,
    replaceNE_id '<' cvTail cv prePart hpre,
    replaceNE_split_head '<' cvTail cv jd nl_not_cvpat restAfterJd_head,
    replaceNE_id '<' cvTail cv jd hjd,
    restAfterJd_decomp,
    replaceNE_split_last '<' cvTail cv (cvPlaceholder ++ postPart) nl_not_cvpat midPart_last,
    replaceNE_id '<' cvTail cv midPart hmid,
    cvPlaceholder_cons, replaceNE_head,
    replaceNE_id '<' cvTail cv postPart hpost]

/-- With no placeholder occurrence inside the JD text, the assembled prompt is
exactly the template with the two slots filled. -/
theorem assemble_struct (jd cv : Str) (hcv : ¬ cvPlaceholder <:+: jd) :
    assemble_prompt jd cv = prePart ++ (jd ++ (midPart ++ (cv ++ postPart))) := by
  unfold assemble_prompt
  rw [assemble_step1, assemble_step2 jd cv hcv]

/-- C2 counterexample: the claim fails as stated.  A CV text that is itself
the literal token `<<CANDIDATE_CV>>` survives substitution, so the assembled
prompt still contains that placeholder token. -/
theorem C2_counterexample :
    ¬ (∀ jd cv : Str,
        ¬ jdPlaceholder <:+: assemble_prompt jd cv
        ∧ ¬ cvPlaceholder <:+: assemble_prompt jd cv
        ∧ jd <:+: assemble_prompt jd cv
        ∧ cv <:+: assemble_prompt jd cv) := by
  intro h
  apply (h "J".data cvPlaceholder).2.1
  rw [assemble_struct "J".data cvPlaceholder (by decide)]
  exact ⟨prePart ++ ("J".data ++ midPart), postPart, by simp [List.append_assoc]⟩

/-- C2 (amended): for every JD text and CV text in which neither placeholder
token occurs, the assembled prompt contains neither `<<JOB_DESCRIPTION>>` nor
`<<CANDIDATE_CV>>`, and contains the JD text and the CV text each at least
once. -/
theorem C2_substitution_amended (jd cv : Str)
    (h1 : ¬ jdPlaceholder <:+: jd) (h2 : ¬ cvPlaceholder <:+: jd)
    (h3 : ¬ jdPlaceholder <:+: cv) (h4 : ¬ cvPlaceholder <:+: cv) :
    ¬ jdPlaceholder <:+: assemble_prompt jd cv
    ∧ ¬ cvPlaceholder <:+: assemble_prompt jd cv
    ∧ jd <:+: assemble_prompt jd cv
    ∧ cv <:+: assemble_prompt jd cv := by
  rw [assemble_struct jd cv h2]
  have hmh : (midPart ++ (cv ++ postPart)).head? = some '\n' := by
    rw [List.head?_append, midPart_head]
    rfl
  have habs : ∀ pat : Str, '\n' ∉ pat → ¬ pat <:+: prePart → ¬ pat <:+: midPart →
      ¬ pat <:+: postPart → ¬ pat <:+: jd → ¬ pat <:+: cv →
      ¬ pat <:+: prePart ++ (jd ++ (midPart ++ (cv ++ postPart))) := by
    intro pat hnl hpre hmid hpost hjd hcv2 hin
    rcases infix_of_append hnl (Or.inl prePart_last) hin with h | h
    · exact hpre h
    rcases infix_of_append hnl (Or.inr hmh) h with h | h
    · exact hjd h
    rcases infix_of_append hnl (Or.inl midPart_last) h with h | h
    · exact hmid h
    rcases infix_of_append hnl (Or.inr postPart_head) h with h | h
    · exact hcv2 h
    · exact hpost h
  refine ⟨?_, ?_, ?_, ?_⟩
  · exact habs jdPlaceholder (by decide) jdPH_not_pre jdPH_not_mid jdPH_not_post h1 h3
  · exact habs cvPlaceholder (by decide) cvPH_not_pre cvPH_not_mid cvPH_not_post h2 h4
  · exact ⟨prePart, midPart ++ (cv ++ postPart), by simp [List.append_assoc]⟩
  · exact ⟨prePart ++ (jd ++ midPart), postPart, by simp [List.append_assoc]⟩

theorem C2_witness :
    ¬ jdPlaceholder <:+: assemble_prompt "X".data "Y".data
    ∧ ¬ cvPlaceholder <:+: assemble_prompt "X".data "Y".data
    ∧ "X".data <:+: assemble_prompt "X".data "Y".data
    ∧ "Y".data <:+: assemble_prompt "X".data "Y".data :=
  C2_substitution_amended "X".data "Y".data (by decide) (by decide) (by decide) (by decide)

end HireMind
